import Mathlib

/-!
Shallow embedding of the nutrition core of the fitness tracker
(`src/app/page.tsx`): raw JavaScript field values, the numeric helpers
(`num`, `round1`, `clamp`), the food-item normalizer, the aggregation
engine (meal totals, day totals, weekly averages), the copy-forward
resolver, the timeline builder and the FoodData-Central macro extraction.

Modelling conventions:
- finite JS numbers are exact rationals (float representation noise is
  outside the model); `NaN` and the infinities, which the code treats
  identically through `Number.isFinite`, are one constructor `nan`;
- JS objects are structures whose fields hold raw `JSVal`s; a possibly
  `null`/`undefined` object position is an `Option`;
- dates: the app stores local-midnight ISO timestamps.  Both the ISO
  string order used by the sorts and the `Date` order used by the
  filters coincide with calendar order for such timestamps, and
  `sameDayISO` compares year/month/day, so a date is modelled as a
  calendar triple `CalDate` ordered lexicographically.
-/

namespace NutriTrack

attribute [local semireducible] Rat.add Rat.mul Rat.sub Rat.inv

/-- A JavaScript runtime value as observed by the nutrition core. -/
inductive JSVal where
  | num (q : ℚ)
  | nan
  | str (s : String)
  | null
  | undefined
deriving DecidableEq, Repr

/-- Value of a decimal digit character. -/
def digitVal (c : Char) : ℕ := c.toNat - 48

/-- Natural number denoted by a digit string. -/
def digitsToNat (cs : List Char) : ℕ :=
  cs.foldl (fun a c => a * 10 + digitVal c) 0

/-- Value of a fractional digit block: `.d₁…dₖ`. -/
def fracVal (cs : List Char) : ℚ :=
  (digitsToNat cs : ℚ) / (10 : ℚ) ^ cs.length

/-- Core of the JS `Number(string)` coercion after sign splitting:
an integer part, optionally a `.` and a fraction part.  `none` is NaN. -/
def jsStrToNumCore (cs : List Char) : Option ℚ :=
  let intPart := cs.takeWhile Char.isDigit
  let rest := cs.drop intPart.length
  match rest with
  | [] => if intPart = [] then none else some (digitsToNat intPart : ℚ)
  | '.' :: frac =>
      if frac.all Char.isDigit ∧ (intPart ≠ [] ∨ frac ≠ []) then
        some ((digitsToNat intPart : ℚ) + fracVal frac)
      else none
  | _ => none

/-- Strip leading and trailing whitespace, as `Number` does before
parsing. -/
def trimChars (cs : List Char) : List Char :=
  ((cs.dropWhile Char.isWhitespace).reverse.dropWhile Char.isWhitespace).reverse

/-- JS `Number(string)`: trimmed empty string is `0`; decimal literals
with optional sign and fraction; anything else is NaN (`none`).
(Exponent and hex forms are outside the model; the app never stores
them.) -/
def jsStrToNum (s : String) : Option ℚ :=
  match trimChars s.toList with
  | [] => some 0
  | '-' :: cs => (jsStrToNumCore cs).map (fun q => -q)
  | '+' :: cs => jsStrToNumCore cs
  | cs => jsStrToNumCore cs

/-- JS `Number(v)`; `none` stands for NaN (and, for strings, any
non-numeric form). -/
def toNumber : JSVal → Option ℚ
  | .num q => some q
  | .nan => none
  | .str s => jsStrToNum s
  | .null => some 0
  | .undefined => none

/-- `num(v)` from the source: `Number(v)` when finite, otherwise `0`. -/
def num (v : JSVal) : ℚ := (toNumber v).getD 0

/-- JS `Math.round`: the closest integer, ties toward `+∞`, i.e.
`⌊q + 1/2⌋`. -/
def jsRound (q : ℚ) : ℤ := Int.floor (q + 1 / 2)

/-- `round1(n)` from the source: `Math.round(x * 10) / 10`.  The
non-finite guard of the source cannot fire on exact rationals. -/
def round1 (q : ℚ) : ℚ := (jsRound (q * 10) : ℚ) / 10

/-- `clamp(v, min, max)` from the source: non-finite coercions fall to
`min`, otherwise `Math.min(max, Math.max(min, n))`. -/
def clamp (v : JSVal) (lo hi : ℚ) : ℚ :=
  match toNumber v with
  | none => lo
  | some n => min hi (max lo n)

/-- A stored food-log entry; every field holds a raw JS value, `rest`
stands for whatever additional fields object spread carries along. -/
structure FoodItem where
  id : JSVal
  name : JSVal
  qty : JSVal
  calories : JSVal
  protein : JSVal
  carbs : JSVal
  fat : JSVal
  rest : List (String × JSVal)
deriving DecidableEq, Repr

/-- The record `{...it}` produces when `it` is `null`/`undefined`:
every field reads back `undefined`. -/
def blankFoodItem : FoodItem :=
  ⟨.undefined, .undefined, .undefined, .undefined, .undefined, .undefined, .undefined, []⟩

/-- JS `x ?? ""`. -/
def jsOrEmptyStr (v : JSVal) : JSVal :=
  if v = .undefined ∨ v = .null then .str "" else v

/-- `normalizeFoodItem(it)` from the source: `qty` defaults to `1` when
`undefined`/`null`/`""` and is otherwise clamped to `[0, 100]`; each
macro field gets `?? ""`.  The argument is optional because the source
reads through `it?.`. -/
def normalizeFoodItem (it : Option FoodItem) : FoodItem :=
  let base := it.getD blankFoodItem
  let qty : JSVal :=
    if base.qty = .undefined ∨ base.qty = .null ∨ base.qty = .str "" then .num 1
    else .num (clamp base.qty 0 100)
  { base with
    qty := qty
    calories := jsOrEmptyStr base.calories
    protein := jsOrEmptyStr base.protein
    carbs := jsOrEmptyStr base.carbs
    fat := jsOrEmptyStr base.fat }

/-- A meal object `{ items }`; `items` is `Option` because the source
reads `meal?.items || []`, and the array elements are `Option` because
the source normalizer accepts nullish entries. -/
structure Meal where
  items : Option (List (Option FoodItem))
deriving DecidableEq, Repr

/-- A macro-totals record. -/
structure Totals where
  calories : ℚ
  protein : ℚ
  carbs : ℚ
  fat : ℚ
deriving DecidableEq, Repr

/-- The all-zero totals. -/
def zeroTotals : Totals := ⟨0, 0, 0, 0⟩

/-- `meal?.items || []`. -/
def mealItems (meal : Option Meal) : List (Option FoodItem) :=
  match meal with
  | none => []
  | some m => m.items.getD []

/-- One step of the reducer inside `calcMealTotals`. -/
def addItem (t : Totals) (it : FoodItem) : Totals :=
  let q := clamp it.qty 0 100
  ⟨t.calories + num it.calories * q,
   t.protein + num it.protein * q,
   t.carbs + num it.carbs * q,
   t.fat + num it.fat * q⟩

/-- Round every component to one decimal. -/
def roundTotals (t : Totals) : Totals :=
  ⟨round1 t.calories, round1 t.protein, round1 t.carbs, round1 t.fat⟩

/-- `calcMealTotals(meal)` from the source. -/
def calcMealTotals (meal : Option Meal) : Totals :=
  roundTotals (((mealItems meal).map normalizeFoodItem).foldl addItem zeroTotals)

/-- The four fixed meal names. -/
inductive MealName where
  | breakfast
  | lunch
  | dinner
  | snack
deriving DecidableEq, Repr

/-- The `MEALS` constant. -/
def MEALS : List MealName := [.breakfast, .lunch, .dinner, .snack]

/-- The meals object of a day: one (possibly absent) meal per fixed
name.  Days built by the app always carry all four keys; an absent key
is observable through imported data, hence the `Option`s. -/
structure Meals where
  breakfast : Option Meal
  lunch : Option Meal
  dinner : Option Meal
  snack : Option Meal
deriving DecidableEq, Repr

/-- `meals[m]`. -/
def Meals.get (ms : Meals) : MealName → Option Meal
  | .breakfast => ms.breakfast
  | .lunch => ms.lunch
  | .dinner => ms.dinner
  | .snack => ms.snack

/-- `meals[m] = v` (on a fresh copy, as the source always spreads
first). -/
def Meals.set (ms : Meals) : MealName → Option Meal → Meals
  | .breakfast, v => { ms with breakfast := v }
  | .lunch, v => { ms with lunch := v }
  | .dinner, v => { ms with dinner := v }
  | .snack, v => { ms with snack := v }

/-- `emptyMeals()` from the source: all four meals present with empty
item arrays. -/
def emptyMeals : Meals :=
  ⟨some ⟨some []⟩, some ⟨some []⟩, some ⟨some []⟩, some ⟨some []⟩⟩

/-- A calendar date (local year/month/day of the stored midnight
timestamp). -/
structure CalDate where
  year : ℕ
  month : ℕ
  day : ℕ
deriving DecidableEq, Repr

/-- Strict calendar order, lexicographic on year/month/day.  For the
app's local-midnight ISO timestamps this is exactly both the `Date`
order and the ISO-string order used by the source. -/
def CalDate.ltb (a b : CalDate) : Bool :=
  decide (a.year < b.year ∨ (a.year = b.year ∧
    (a.month < b.month ∨ (a.month = b.month ∧ a.day < b.day))))

/-- Reflexive calendar order. -/
def CalDate.leb (a b : CalDate) : Bool := ! CalDate.ltb b a

/-- A stored nutrition day. -/
structure Day where
  id : JSVal
  date : Option CalDate
  meals : Option Meals
  notes : JSVal
  weight : JSVal
deriving DecidableEq, Repr

/-- One step of the reducer inside `calcDayTotals` (the source wraps
each component in `num`, the identity on the finite numbers produced by
`calcMealTotals`). -/
def addTotals (t u : Totals) : Totals :=
  ⟨t.calories + u.calories, t.protein + u.protein, t.carbs + u.carbs, t.fat + u.fat⟩

/-- Sum of a list of totals records, as the source's reducers compute
it. -/
def sumTotals (l : List Totals) : Totals := l.foldl addTotals zeroTotals

/-- The list of the four per-meal totals of a day's meals object. -/
def mealTotalsList (ms : Meals) : List Totals :=
  MEALS.map (fun m => calcMealTotals (ms.get m))

/-- `calcDayTotals(day)` from the source: sum the four per-meal totals
(`day?.meals || emptyMeals()`) and round once more. -/
def calcDayTotals (day : Day) : Totals :=
  roundTotals (sumTotals (mealTotalsList (day.meals.getD emptyMeals)))

/-! ### Calendar arithmetic (`d.setDate(d.getDate() - i)`) -/

/-- Gregorian leap year. -/
def isLeapYear (y : ℕ) : Bool :=
  (y % 4 = 0 && y % 100 ≠ 0) || y % 400 = 0

/-- Days in a Gregorian month. -/
def daysInMonth (y m : ℕ) : ℕ :=
  if m = 2 then (if isLeapYear y then 29 else 28)
  else if m = 4 ∨ m = 6 ∨ m = 9 ∨ m = 11 then 30
  else 31

/-- The calendar day before `c`. -/
def prevCalDay (c : CalDate) : CalDate :=
  if 1 < c.day then ⟨c.year, c.month, c.day - 1⟩
  else if 1 < c.month then ⟨c.year, c.month - 1, daysInMonth c.year (c.month - 1)⟩
  else ⟨c.year - 1, 12, 31⟩

/-- `c` minus `n` calendar days, as `Date.setDate` arithmetic computes
it. -/
def subDays (c : CalDate) : ℕ → CalDate
  | 0 => c
  | n + 1 => prevCalDay (subDays c n)

/-! ### Day collection operations -/

/-- `sameDayISO(d.date, t)` for a stored (possibly absent/invalid) date
against a valid calendar date: component-wise equality; an invalid date
compares unequal because its components are NaN. -/
def sameDayAs (od : Option CalDate) (t : CalDate) : Bool :=
  match od with
  | none => false
  | some a => a = t

/-- The patches the app passes to `upsertDay`: some subset of
`{meals, notes, weight}`; `none` means the key is absent from the
patch. -/
structure DayPatch where
  meals : Option Meals
  notes : Option JSVal
  weight : Option JSVal
deriving DecidableEq, Repr

/-- Object spread `{...day, ...patch}`. -/
def applyPatch (d : Day) (p : DayPatch) : Day :=
  { d with
    meals := match p.meals with | some m => some m | none => d.meals
    notes := p.notes.getD d.notes
    weight := p.weight.getD d.weight }

/-- `copy[idx] = {...copy[idx], ...patch}` after
`findIndex(sameDayISO)`: patch the first day of the given calendar
date, keep everything else. -/
def patchFirstSameDay (t : CalDate) (p : DayPatch) : List Day → List Day
  | [] => []
  | d :: rest =>
      if sameDayAs d.date t then applyPatch d p :: rest
      else d :: patchFirstSameDay t p rest

/-- The comparison `a.date < b.date` the day sorts make on ISO strings,
modelled on calendar dates; an absent date (the string `"undefined"`)
orders above every ISO date string. -/
def optDateLtb (a b : Option CalDate) : Bool :=
  match a, b with
  | none, _ => false
  | some _, none => true
  | some a, some b => CalDate.ltb a b

/-- Descending day order of `(a, b) => (a.date < b.date ? 1 : -1)`. -/
def dayDescRel (a b : Day) : Prop := optDateLtb a.date b.date = false

instance : DecidableRel dayDescRel := fun a b => by
  unfold dayDescRel; infer_instance

/-- Ascending day order of `(a, b) => (a.date < b.date ? -1 : 1)`. -/
def dayAscRel (a b : Day) : Prop := optDateLtb b.date a.date = false

instance : DecidableRel dayAscRel := fun a b => by
  unfold dayAscRel; infer_instance

/-- The fresh day `{ id: uid(), date: dayISO, meals: emptyMeals(),
notes: "", weight: "" }`; the random `uid()` is a parameter. -/
def freshDay (newId : JSVal) (t : CalDate) : Day :=
  ⟨newId, some t, some emptyMeals, .str "", .str ""⟩

/-- `upsertDay(patch)` from the source, acting on an explicit day
collection: patch the first day with the same calendar date, or prepend
a fresh patched day and re-sort descending when none exists. -/
def upsertDay (newId : JSVal) (days : List Day) (t : CalDate) (p : DayPatch) : List Day :=
  if days.any (fun d => sameDayAs d.date t) then
    patchFirstSameDay t p days
  else
    List.insertionSort dayDescRel (applyPatch (freshDay newId t) p :: days)

/-- `selectedDay`: the stored day of the selected date, or the unsaved
default. -/
def selectedDayOf (days : List Day) (t : CalDate) : Day :=
  match days.find? (fun d => sameDayAs d.date t) with
  | some d => d
  | none => ⟨.null, some t, some emptyMeals, .str "", .str ""⟩

/-- The days strictly before the target date
(`new Date(d.date) < dayDate`; an invalid date never compares true). -/
def daysBefore (days : List Day) (t : CalDate) : List Day :=
  days.filter (fun d =>
    match d.date with
    | some a => CalDate.ltb a t
    | none => false)

/-- The `[0]` of the descending sort of the prior days: the most recent
day strictly before the target date. -/
def mostRecentPriorDay (days : List Day) (t : CalDate) : Option Day :=
  (List.insertionSort dayDescRel (daysBefore days t)).head?

/-- `{...it, id: uid()}`. -/
def spreadWithId (it : Option FoodItem) (newId : JSVal) : FoodItem :=
  { it.getD blankFoodItem with id := newId }

/-- `items.map((it) => normalizeFoodItem({ ...it, id: uid() }))`: a
deep value copy with per-item fresh identities drawn from the supply
`g`. -/
def freshItems (g : ℕ → JSVal) (items : List (Option FoodItem)) : List (Option FoodItem) :=
  items.mapIdx (fun i it => some (normalizeFoodItem (some (spreadWithId it (g i)))))

/-- `prev.meals?.[mealName]?.items || []`. -/
def mealItemsOf (d : Day) (m : MealName) : List (Option FoodItem) :=
  match d.meals with
  | none => []
  | some ms =>
      match ms.get m with
      | none => []
      | some meal => meal.items.getD []

/-- `meals[mealName]?.items || []` on a meals object. -/
def mealItemsIn (ms : Meals) (m : MealName) : List (Option FoodItem) :=
  match ms.get m with
  | none => []
  | some meal => meal.items.getD []

/-- The meals object `copyMealFromPreviousDay` builds before calling
`upsertDay`: copied items of the prior day's meal, replacing the
destination meal's items or prepended to them. -/
def copyOneMealMeals (g : ℕ → JSVal) (days : List Day) (t : CalDate)
    (mealName : MealName) (mode : String) (prev : Day) : Meals :=
  let prevMealItems := freshItems g (mealItemsOf prev mealName)
  let meals := (selectedDayOf days t).meals.getD emptyMeals
  let current := mealItemsIn meals mealName
  meals.set mealName
    (some ⟨some (if mode = "append" then prevMealItems ++ current else prevMealItems)⟩)

/-- `copyMealFromPreviousDay(mealName, mode)` from the source, acting
on an explicit day collection; no qualifying prior day means no state
update. -/
def copyMealFromPreviousDay (g : ℕ → JSVal) (newId : JSVal) (days : List Day)
    (t : CalDate) (mealName : MealName) (mode : String) : List Day :=
  match mostRecentPriorDay days t with
  | none => days
  | some prev =>
      upsertDay newId days t ⟨some (copyOneMealMeals g days t mealName mode prev), none, none⟩

/-- The per-meal rewrite loop of `copyMealsFromPreviousDay`:
`mealsCopy[m].items = (mealsCopy[m].items || []).map(...)` for each of
the four meal names, over the JSON deep clone (the identity on stored
values).  A missing meal key makes the property write throw, modelled
as `none`. -/
def setAllMealsFresh (g : ℕ → JSVal) (mm : Meals) : Option Meals :=
  MEALS.foldl
    (fun acc m =>
      acc.bind (fun cur =>
        match cur.get m with
        | none => none
        | some meal => some (cur.set m (some ⟨some (freshItems g (meal.items.getD []))⟩))))
    (some mm)

/-- `copyMealsFromPreviousDay()` from the source, acting on an explicit
day collection; `some` is the updated collection, `none` the thrown
`TypeError` on a prior day whose meals object lacks a fixed meal key. -/
def copyMealsFromPreviousDay (g : ℕ → JSVal) (newId : JSVal) (days : List Day)
    (t : CalDate) : Option (List Day) :=
  match mostRecentPriorDay days t with
  | none => some days
  | some prev =>
      (setAllMealsFresh g (prev.meals.getD emptyMeals)).map
        (fun mm => upsertDay newId days t ⟨some mm, none, none⟩)

/-! ### Weekly averages -/

/-- `new Map(safe.map((d) => [toISODateInput(d.date), d])).get(key)`:
the last stored day of the given calendar date (later map entries
overwrite earlier ones); an invalid stored date produces a `"NaN-…"`
key no lookup ever uses. -/
def lookupByDate (days : List Day) (c : CalDate) : Option Day :=
  days.foldl (fun acc d => if d.date = some c then some d else acc) none

/-- Day totals of the stored day of a calendar date, all-zero when no
day is stored. -/
def dayTotalsAt (days : List Day) (c : CalDate) : Totals :=
  match lookupByDate days c with
  | some d => calcDayTotals d
  | none => zeroTotals

/-- The `WeeklyAverages` computation from the source: sum the totals of
the 7 consecutive calendar days ending at the anchor (missing days as
zero), divide by exactly 7; calories rounded to an integer, the other
macros to one decimal. -/
def weeklyAverages (days : List Day) (anchor : CalDate) : Totals :=
  let items := (List.range 7).map (fun k => dayTotalsAt days (subDays anchor (6 - k)))
  let sum := sumTotals items
  ⟨(jsRound (sum.calories / 7) : ℚ),
   round1 (sum.protein / 7),
   round1 (sum.carbs / 7),
   round1 (sum.fat / 7)⟩

/-! ### Timeline builder -/

/-- One point of the macro timeline. -/
structure TimelineEntry where
  iso : Option CalDate
  dateLabel : String
  calories : ℚ
  protein : ℚ
  carbs : ℚ
  fat : ℚ
  weight : JSVal
deriving DecidableEq, Repr

/-- English short month name, as `toLocaleDateString(undefined,
{month: "short"})` renders it in the en-US default locale. -/
def monthShortName (m : ℕ) : String :=
  match m with
  | 1 => "Jan" | 2 => "Feb" | 3 => "Mar" | 4 => "Apr" | 5 => "May" | 6 => "Jun"
  | 7 => "Jul" | 8 => "Aug" | 9 => "Sep" | 10 => "Oct" | 11 => "Nov" | 12 => "Dec"
  | _ => "???"

/-- Two-digit zero padding. -/
def pad2 (n : ℕ) : String :=
  if n < 10 then "0" ++ toString n else toString n

/-- The `{month: "short", day: "2-digit"}` date label. -/
def shortDateLabel (od : Option CalDate) : String :=
  match od with
  | none => "Invalid Date"
  | some c => monthShortName c.month ++ " " ++ pad2 c.day

/-- The raw-weight field of a timeline point:
`d?.weight === undefined || null || "" ? null : Number(d.weight)`.
A non-numeric weight string becomes NaN, not null. -/
def timelineWeight (w : JSVal) : JSVal :=
  if w = .undefined ∨ w = .null ∨ w = .str "" then .null
  else
    match toNumber w with
    | some q => .num q
    | none => .nan

/-- One timeline point of a day. -/
def timelineEntryOf (d : Day) : TimelineEntry :=
  let t := calcDayTotals d
  ⟨d.date, shortDateLabel d.date, t.calories, t.protein, t.carbs, t.fat,
   timelineWeight d.weight⟩

/-- `sorted.slice(-limit)`: the trailing `limit` entries — except that
`slice(-0)` is `slice(0)`, the whole list. -/
def takeTrailing (limit : ℕ) (l : List α) : List α :=
  if limit = 0 then l else l.drop (l.length - limit)

/-- `d?.date` truthiness filter. -/
def hasDate (d : Day) : Bool := d.date.isSome

/-- `buildMacroTimeline(days, limit)` from the source: keep the days
with a date, sort ascending by calendar date, take the trailing
`limit`, project each day to a timeline point. -/
def buildMacroTimeline (days : List Day) (limit : ℕ) : List TimelineEntry :=
  (takeTrailing limit (List.insertionSort dayAscRel (days.filter hasDate))).map
    timelineEntryOf

/-! ### FoodData Central macro extraction -/

/-- A nutrient record of an FDC food. -/
structure Nutrient where
  nutrientName : JSVal
  nutrientNumber : JSVal
  value : JSVal
  amount : JSVal
deriving DecidableEq, Repr

/-- `n?.` on an absent nutrient: all fields `undefined`. -/
def blankNutrient : Nutrient := ⟨.undefined, .undefined, .undefined, .undefined⟩

/-- An FDC food record; `foodNutrients` is `Option` because the source
guards with `Array.isArray`, and elements are `Option` because the
source reads them through `n?.`. -/
structure FDCFood where
  foodNutrients : Option (List (Option Nutrient))
deriving DecidableEq, Repr

/-- JS truthiness on our values. -/
def jsFalsy (v : JSVal) : Bool :=
  v = .undefined || v = .null || v = .str "" || v = .num 0 || v = .nan

/-- JS `a || b`. -/
def jsOr (a b : JSVal) : JSVal := if jsFalsy a then b else a

/-- JS `a ?? b`. -/
def jsNullish (a b : JSVal) : JSVal :=
  if a = .undefined ∨ a = .null then b else a

/-- The shortest finite decimal exponent of a rational, when one of at
most 40 digits exists (every JS float has one). -/
def decExponent (q : ℚ) : Option ℕ :=
  (List.range 40).find? (fun k => (q * (10 : ℚ) ^ k).den = 1)

/-- Left-pad with zeros to the given length. -/
def padLeftZeros (s : String) (len : ℕ) : String :=
  String.mk (List.replicate (len - s.length) '0') ++ s

/-- Finite decimal rendering of `q` with `k` fractional digits. -/
def renderDec (q : ℚ) (k : ℕ) : String :=
  let a := (q * (10 : ℚ) ^ k).num.natAbs
  let s := padLeftZeros (toString a) (k + 1)
  (if q < 0 then "-" else "") ++ s.dropRight k ++ "." ++ s.takeRight k

/-- JS number-to-string: integers print plainly, other floats print
their (shortest) finite decimal expansion. -/
def qToString (q : ℚ) : String :=
  match decExponent q with
  | some 0 => toString q.num
  | some k => renderDec q k
  | none => toString q.num ++ "/" ++ toString q.den

/-- JS `String(v)`. -/
def jsToString (v : JSVal) : String :=
  match v with
  | .str s => s
  | .num q => qToString q
  | .nan => "NaN"
  | .null => "null"
  | .undefined => "undefined"

/-- Does `pat` occur at some position of `s`? -/
def charsContain (pat : List Char) : List Char → Bool
  | [] => pat.isEmpty
  | c :: rest => pat.isPrefixOf (c :: rest) || charsContain pat rest

/-- Is `pat` a substring of `s`? (JS `String.prototype.includes`.) -/
def strContains (s pat : String) : Bool :=
  charsContain pat.toList s.toList

/-- ASCII lower-casing, character by character (`toLowerCase` on the
names the food database serves). -/
def lowerStr (s : String) : String :=
  String.mk (s.toList.map Char.toLower)

/-- The `find(needle)` predicate:
`String(n?.nutrientName || "").toLowerCase().includes(needle)`. -/
def nameMatches (n : Option Nutrient) (needle : String) : Bool :=
  strContains (lowerStr (jsToString (jsOr (n.getD blankNutrient).nutrientName (.str "")))) needle

/-- The nutrient-number predicate:
`String(n?.nutrientNumber || "") === numStr`. -/
def numberMatches (n : Option Nutrient) (numStr : String) : Bool :=
  jsToString (jsOr (n.getD blankNutrient).nutrientNumber (.str "")) = numStr

/-- First nutrient whose name contains the needle.  A `null` array
element never matches (its name reads `""`), so the flattening is
exact. -/
def findNutByName (l : List (Option Nutrient)) (needle : String) : Option Nutrient :=
  (l.find? (fun n => nameMatches n needle)).bind id

/-- First nutrient with the given standard nutrient number. -/
def findNutByNumber (l : List (Option Nutrient)) (numStr : String) : Option Nutrient :=
  (l.find? (fun n => numberMatches n numStr)).bind id

/-- `caloriesN?.value ?? caloriesN?.amount ?? ""`. -/
def valueOrAmount (n : Option Nutrient) : JSVal :=
  match n with
  | none => .str ""
  | some nu => jsNullish nu.value (jsNullish nu.amount (.str ""))

/-- `x === "" ? "" : String(x)`. -/
def strOrEmpty (v : JSVal) : String :=
  if v = .str "" then "" else jsToString v

/-- The four extracted macro strings. -/
structure ExtractedMacros where
  calories : String
  protein : String
  carbs : String
  fat : String
deriving DecidableEq, Repr

/-- `food?.foodNutrients` when it is an array, else `[]`. -/
def nutrientsOf (food : Option FDCFood) : List (Option Nutrient) :=
  match food with
  | none => []
  | some f => f.foodNutrients.getD []

/-- `extractMacrosFromFDC(food)` from the source: each macro's
nutrient entry is located by case-insensitive name match with a
nutrient-number fallback (`caloriesN`, `proteinN`, `carbsN`, `fatN`),
then read through `?.value ?? ?.amount ?? ""` and stringified. -/
def extractMacrosFromFDC (food : Option FDCFood) : ExtractedMacros :=
  ⟨strOrEmpty (valueOrAmount ((findNutByName (nutrientsOf food) "energy").orElse
      (fun _ => findNutByNumber (nutrientsOf food) "208"))),
   strOrEmpty (valueOrAmount ((findNutByName (nutrientsOf food) "protein").orElse
      (fun _ => findNutByNumber (nutrientsOf food) "203"))),
   strOrEmpty (valueOrAmount ((findNutByName (nutrientsOf food) "carbohydrate").orElse
      (fun _ => findNutByNumber (nutrientsOf food) "205"))),
   strOrEmpty (valueOrAmount (((findNutByName (nutrientsOf food) "total lipid").orElse
      (fun _ => findNutByName (nutrientsOf food) "fat")).orElse
      (fun _ => findNutByNumber (nutrientsOf food) "204")))⟩

/-! ### Statement helpers -/

/-- Contribution of one raw item to one macro total: the per-serving
macro of the normalized item times its clamped quantity. -/
def itemContribution (f : FoodItem → JSVal) (it : Option FoodItem) : ℚ :=
  num (f (normalizeFoodItem it)) * clamp (normalizeFoodItem it).qty 0 100

/-- The unrounded sum of the four per-meal totals of a day. -/
def rawDaySum (day : Day) : Totals :=
  sumTotals (mealTotalsList (day.meals.getD emptyMeals))

/-- Calendar-day equality of two stored dates (both must be present). -/
def sameCalendarDay (a b : Option CalDate) : Bool :=
  match a, b with
  | some x, some y => x = y
  | _, _ => false

/-- The collection invariant: no two stored days share a calendar
date. -/
def DistinctDates (days : List Day) : Prop :=
  days.Pairwise (fun a b => sameCalendarDay a.date b.date = false)

/-- A component is an integer number of tenths. -/
def Tenths (t : Totals) : Prop :=
  ∃ a b c d : ℤ,
    t = ⟨(a : ℚ) / 10, (b : ℚ) / 10, (c : ℚ) / 10, (d : ℚ) / 10⟩

/-- Ascending timeline order on the attached dates. -/
def entryAscRel (e₁ e₂ : TimelineEntry) : Prop :=
  optDateLtb e₂.iso e₁.iso = false

/-! ### Concrete scenario data -/

/-- A deterministic stand-in for the random `uid()` supply. -/
def g0 : ℕ → JSVal := fun n => .str ("id" ++ toString n)

/-- `{qty: 2, calories: 100}`. -/
def itemA : FoodItem := ⟨.undefined, .undefined, .num 2, .num 100, .undefined, .undefined, .undefined, []⟩

/-- `{qty: 1, calories: 50}`. -/
def itemB : FoodItem := ⟨.undefined, .undefined, .num 1, .num 50, .undefined, .undefined, .undefined, []⟩

/-- The meal `[{qty:2, calories:100}, {qty:1, calories:50}]`. -/
def mealScenario : Meal := ⟨some [some itemA, some itemB]⟩

/-- An item whose `qty` is the garbled string `"abc"`. -/
def itemAbc : FoodItem := ⟨.undefined, .undefined, .str "abc", .num 100, .num 5, .num 10, .num 2, []⟩

/-- A meals object with a single breakfast item of the given calories
(one serving). -/
def mealsCal (c : ℚ) : Meals :=
  ⟨some ⟨some [some ⟨.undefined, .undefined, .num 1, .num c, .undefined, .undefined, .undefined, []⟩]⟩,
   some ⟨some []⟩, some ⟨some []⟩, some ⟨some []⟩⟩

/-- A logged day of 100 calories, 2026-10-10. -/
def dayW1 : Day := ⟨.null, some ⟨2026, 10, 10⟩, some (mealsCal 100), .str "", .str ""⟩

/-- A logged day of 200 calories, 2026-10-07. -/
def dayW2 : Day := ⟨.null, some ⟨2026, 10, 7⟩, some (mealsCal 200), .str "", .str ""⟩

/-- The weekly-average anchor date 2026-10-11. -/
def anchorW : CalDate := ⟨2026, 10, 11⟩

/-- A prior day (2026-10-10) with two lunch items. -/
def dayP : Day :=
  ⟨.str "p", some ⟨2026, 10, 10⟩,
   some ⟨some ⟨some []⟩, some ⟨some [some itemA, some itemB]⟩, some ⟨some []⟩, some ⟨some []⟩⟩,
   .str "", .str ""⟩

/-- The selected day (2026-10-11) with one pre-existing lunch item. -/
def dayT : Day :=
  ⟨.str "t", some ⟨2026, 10, 11⟩,
   some ⟨some ⟨some []⟩, some ⟨some [some itemB]⟩, some ⟨some []⟩, some ⟨some []⟩⟩,
   .str "", .str ""⟩

/-- A two-day collection: the selected day and its prior day. -/
def days5 : List Day := [dayT, dayP]

/-- The collection after copying all meals forward onto 2026-10-11. -/
def days6R : List Day := (copyMealsFromPreviousDay g0 (.str "new") days5 ⟨2026, 10, 11⟩).getD []

/-- A stored day whose weight field holds the non-numeric string
`"abc"`. -/
def dayAbc : Day := ⟨.null, some ⟨2026, 10, 10⟩, some emptyMeals, .str "", .str "abc"⟩

/-- A logged day of October 2026 with `d` calories. -/
def day10 (d : ℕ) : Day := ⟨.null, some ⟨2026, 10, d⟩, some (mealsCal (d : ℚ)), .str "", .str ""⟩

/-- Ten days of history, stored newest first as the app keeps them. -/
def days10 : List Day := (List.range 10).map (fun i => day10 (10 - i))

/-- The FDC food `{foodNutrients: [{nutrientNumber: "208", value: 95}]}`. -/
def foodScenario : FDCFood := ⟨some [some ⟨.undefined, .str "208", .num 95, .undefined⟩]⟩

/-- The selected date 2026-10-11 of the copy scenarios. -/
def tW : CalDate := ⟨2026, 10, 11⟩

/-! ## Rounding lemmas -/

theorem round1_tenth (k : ℤ) : round1 ((k : ℚ) / 10) = (k : ℚ) / 10 := by
  unfold round1 jsRound
  have h : ((k : ℚ) / 10) * 10 = (k : ℚ) :=
    div_mul_cancel₀ _ (by norm_num)
  rw [h, add_comm, Int.floor_add_int]
  have h2 : Int.floor ((1 : ℚ) / 2) = 0 := by norm_num
  rw [h2]
  push_cast
  ring

theorem round1_zero : round1 0 = 0 := by
  have h := round1_tenth 0
  simpa using h

theorem tenths_roundTotals (t : Totals) : Tenths (roundTotals t) :=
  ⟨jsRound (t.calories * 10), jsRound (t.protein * 10),
   jsRound (t.carbs * 10), jsRound (t.fat * 10), rfl⟩

theorem tenths_zero : Tenths zeroTotals :=
  ⟨0, 0, 0, 0, by simp [zeroTotals]⟩

theorem tenths_add {t u : Totals} (ht : Tenths t) (hu : Tenths u) :
    Tenths (addTotals t u) := by
  obtain ⟨a, b, c, d, rfl⟩ := ht
  obtain ⟨a', b', c', d', rfl⟩ := hu
  refine ⟨a + a', b + b', c + c', d + d', ?_⟩
  simp only [addTotals, Totals.mk.injEq]
  refine ⟨by push_cast; ring, by push_cast; ring, by push_cast; ring, by push_cast; ring⟩

theorem tenths_foldl (l : List Totals) (acc : Totals) (hacc : Tenths acc)
    (h : ∀ t ∈ l, Tenths t) : Tenths (l.foldl addTotals acc) := by
  induction l generalizing acc with
  | nil => exact hacc
  | cons t l ih =>
      exact ih (addTotals acc t) (tenths_add hacc (h t (by simp)))
        (fun u hu => h u (by simp [hu]))

theorem tenths_sumTotals {l : List Totals} (h : ∀ t ∈ l, Tenths t) :
    Tenths (sumTotals l) :=
  tenths_foldl l zeroTotals tenths_zero h

theorem roundTotals_of_tenths {t : Totals} (h : Tenths t) : roundTotals t = t := by
  obtain ⟨a, b, c, d, rfl⟩ := h
  simp [roundTotals, round1_tenth]

theorem tenths_calcMealTotals (meal : Option Meal) : Tenths (calcMealTotals meal) :=
  tenths_roundTotals _

/-! ## Aggregation lemmas -/

theorem foldl_addItem (l : List FoodItem) (t0 : Totals) :
    l.foldl addItem t0 =
      ⟨t0.calories + (l.map (fun it => num it.calories * clamp it.qty 0 100)).sum,
       t0.protein + (l.map (fun it => num it.protein * clamp it.qty 0 100)).sum,
       t0.carbs + (l.map (fun it => num it.carbs * clamp it.qty 0 100)).sum,
       t0.fat + (l.map (fun it => num it.fat * clamp it.qty 0 100)).sum⟩ := by
  induction l generalizing t0 with
  | nil => simp
  | cons it l ih =>
      simp only [List.foldl_cons, ih, List.map_cons, List.sum_cons, addItem,
        Totals.mk.injEq]
      refine ⟨by ring, by ring, by ring, by ring⟩

theorem calcMealTotals_eq (meal : Option Meal) :
    calcMealTotals meal =
      ⟨round1 (((mealItems meal).map (itemContribution FoodItem.calories)).sum),
       round1 (((mealItems meal).map (itemContribution FoodItem.protein)).sum),
       round1 (((mealItems meal).map (itemContribution FoodItem.carbs)).sum),
       round1 (((mealItems meal).map (itemContribution FoodItem.fat)).sum)⟩ := by
  unfold calcMealTotals roundTotals
  rw [foldl_addItem]
  simp only [zeroTotals, List.map_map, zero_add]
  rfl

theorem dayTotals_eq_rawSum (day : Day) : calcDayTotals day = rawDaySum day := by
  have h : calcDayTotals day = roundTotals (rawDaySum day) := rfl
  rw [h]
  apply roundTotals_of_tenths
  apply tenths_sumTotals
  intro t ht
  simp only [mealTotalsList, List.mem_map] at ht
  obtain ⟨m, _, rfl⟩ := ht
  exact tenths_calcMealTotals _

/-! ## Normalizer lemmas -/

theorem jsOrEmptyStr_idem (v : JSVal) : jsOrEmptyStr (jsOrEmptyStr v) = jsOrEmptyStr v := by
  by_cases h : v = JSVal.undefined ∨ v = JSVal.null
  · simp [jsOrEmptyStr, h]
  · simp [jsOrEmptyStr, h]

theorem jsOrEmptyStr_ne (v : JSVal) :
    jsOrEmptyStr v ≠ JSVal.undefined ∧ jsOrEmptyStr v ≠ JSVal.null := by
  by_cases h : v = JSVal.undefined ∨ v = JSVal.null
  · simp [jsOrEmptyStr, h]
  · push_neg at h
    unfold jsOrEmptyStr
    rw [if_neg (by simp [h.1, h.2])]
    exact h

theorem clamp_mem (v : JSVal) : 0 ≤ clamp v 0 100 ∧ clamp v 0 100 ≤ 100 := by
  unfold clamp
  cases toNumber v with
  | none => exact ⟨le_rfl, by norm_num⟩
  | some n =>
      exact ⟨le_min (by norm_num) (le_max_left 0 n), min_le_left _ _⟩

theorem clamp_num_of_mem {q : ℚ} (h0 : 0 ≤ q) (h1 : q ≤ 100) :
    clamp (JSVal.num q) 0 100 = q := by
  simp only [clamp, toNumber]
  rw [max_eq_right h0, min_eq_right h1]

theorem normalize_qty_num (x : Option FoodItem) :
    ∃ q : ℚ, (normalizeFoodItem x).qty = JSVal.num q ∧ 0 ≤ q ∧ q ≤ 100 := by
  unfold normalizeFoodItem
  by_cases h : (x.getD blankFoodItem).qty = JSVal.undefined ∨
      (x.getD blankFoodItem).qty = JSVal.null ∨ (x.getD blankFoodItem).qty = JSVal.str ""
  · exact ⟨1, by simp [h], by norm_num, by norm_num⟩
  · exact ⟨clamp (x.getD blankFoodItem).qty 0 100, by simp [h],
      (clamp_mem _).1, (clamp_mem _).2⟩

theorem normalize_fixed (n : FoodItem)
    (hq : ∃ q : ℚ, n.qty = JSVal.num q ∧ 0 ≤ q ∧ q ≤ 100)
    (hc : jsOrEmptyStr n.calories = n.calories)
    (hp : jsOrEmptyStr n.protein = n.protein)
    (hcb : jsOrEmptyStr n.carbs = n.carbs)
    (hf : jsOrEmptyStr n.fat = n.fat) :
    normalizeFoodItem (some n) = n := by
  obtain ⟨q, hqty, h0, h1⟩ := hq
  obtain ⟨i, nm, qty, cal, prot, carbs, fat, rest⟩ := n
  simp only at hqty hc hp hcb hf
  subst hqty
  unfold normalizeFoodItem
  simp only [Option.getD_some]
  rw [if_neg (by simp), clamp_num_of_mem h0 h1, hc, hp, hcb, hf]

theorem normalize_macros_fix (x : Option FoodItem) :
    jsOrEmptyStr (normalizeFoodItem x).calories = (normalizeFoodItem x).calories ∧
    jsOrEmptyStr (normalizeFoodItem x).protein = (normalizeFoodItem x).protein ∧
    jsOrEmptyStr (normalizeFoodItem x).carbs = (normalizeFoodItem x).carbs ∧
    jsOrEmptyStr (normalizeFoodItem x).fat = (normalizeFoodItem x).fat := by
  refine ⟨?_, ?_, ?_, ?_⟩ <;> exact jsOrEmptyStr_idem _

/-! ## C1: per-meal totals -/

/-- C1: `calcMealTotals` normalizes every item, sums per-serving macro
times clamped quantity per macro, and rounds each sum to one decimal;
an absent meal, absent item array or empty item array gives all-zero
totals; the scenario `[{qty:2, calories:100}, {qty:1, calories:50}]`
yields 250 calories. -/
theorem claim_mealTotals (meal : Option Meal) :
    calcMealTotals meal =
      ⟨round1 (((mealItems meal).map (itemContribution FoodItem.calories)).sum),
       round1 (((mealItems meal).map (itemContribution FoodItem.protein)).sum),
       round1 (((mealItems meal).map (itemContribution FoodItem.carbs)).sum),
       round1 (((mealItems meal).map (itemContribution FoodItem.fat)).sum)⟩
  ∧ calcMealTotals none = zeroTotals
  ∧ (∀ m : Meal, m.items = none → calcMealTotals (some m) = zeroTotals)
  ∧ calcMealTotals (some ⟨some []⟩) = zeroTotals
  ∧ (calcMealTotals (some mealScenario)).calories = 250 := by
  refine ⟨calcMealTotals_eq meal, by decide, ?_, by decide, by decide⟩
  intro m hm
  obtain ⟨items⟩ := m
  have h2 : items = none := hm
  subst h2
  decide

theorem claim_mealTotals_witness : calcMealTotals (some ⟨none⟩) = zeroTotals :=
  (claim_mealTotals none).2.2.1 ⟨none⟩ rfl

/-! ## C2: per-day totals -/

/-- C2: `calcDayTotals` is the sum of the four per-meal totals (missing
meals object treated as empty), rounded again at the day level; the
re-rounding is exact because meal totals are integer tenths, so each
day-level macro agrees with the raw sum to within 0.1; a day with no
logged items gives all-zero totals. -/
theorem claim_dayTotals (day : Day) :
    calcDayTotals day = roundTotals (rawDaySum day)
  ∧ rawDaySum day =
      sumTotals (MEALS.map (fun m => calcMealTotals ((day.meals.getD emptyMeals).get m)))
  ∧ calcDayTotals day = rawDaySum day
  ∧ |(calcDayTotals day).calories - (rawDaySum day).calories| ≤ 1 / 10
  ∧ |(calcDayTotals day).protein - (rawDaySum day).protein| ≤ 1 / 10
  ∧ |(calcDayTotals day).carbs - (rawDaySum day).carbs| ≤ 1 / 10
  ∧ |(calcDayTotals day).fat - (rawDaySum day).fat| ≤ 1 / 10
  ∧ (day.meals = none → calcDayTotals day = zeroTotals)
  ∧ (day.meals = some emptyMeals → calcDayTotals day = zeroTotals) := by
  have he := dayTotals_eq_rawSum day
  refine ⟨rfl, rfl, he, ?_, ?_, ?_, ?_, ?_, ?_⟩
  · rw [he]; simp
  · rw [he]; simp
  · rw [he]; simp
  · rw [he]; simp
  · intro h
    simp only [calcDayTotals, h, Option.getD_none]
    decide
  · intro h
    simp only [calcDayTotals, h, Option.getD_some]
    decide

theorem claim_dayTotals_witness :
    calcDayTotals ⟨JSVal.null, none, none, JSVal.str "", JSVal.str ""⟩ = zeroTotals :=
  (claim_dayTotals ⟨JSVal.null, none, none, JSVal.str "", JSVal.str ""⟩).2.2.2.2.2.2.2.1 rfl

/-! ## C3: normalizer idempotence and totality -/

/-- C3: the food-item normalizer is idempotent, and every input —
including a nullish one — is coerced to a complete record: a finite
quantity in `[0, 100]` and macro fields that are never
`undefined`/`null`. -/
theorem claim_normalizeIdempotent :
    (∀ x : Option FoodItem,
      normalizeFoodItem (some (normalizeFoodItem x)) = normalizeFoodItem x)
  ∧ (∀ x : Option FoodItem,
      ∃ q : ℚ, (normalizeFoodItem x).qty = JSVal.num q ∧ 0 ≤ q ∧ q ≤ 100)
  ∧ (∀ x : Option FoodItem,
      (normalizeFoodItem x).calories ≠ JSVal.undefined ∧
      (normalizeFoodItem x).calories ≠ JSVal.null ∧
      (normalizeFoodItem x).protein ≠ JSVal.undefined ∧
      (normalizeFoodItem x).protein ≠ JSVal.null ∧
      (normalizeFoodItem x).carbs ≠ JSVal.undefined ∧
      (normalizeFoodItem x).carbs ≠ JSVal.null ∧
      (normalizeFoodItem x).fat ≠ JSVal.undefined ∧
      (normalizeFoodItem x).fat ≠ JSVal.null) := by
  refine ⟨?_, normalize_qty_num, ?_⟩
  · intro x
    obtain ⟨hc, hp, hcb, hf⟩ := normalize_macros_fix x
    exact normalize_fixed _ (normalize_qty_num x) hc hp hcb hf
  · intro x
    have hc : (normalizeFoodItem x).calories = jsOrEmptyStr ((x.getD blankFoodItem).calories) := rfl
    have hp : (normalizeFoodItem x).protein = jsOrEmptyStr ((x.getD blankFoodItem).protein) := rfl
    have hcb : (normalizeFoodItem x).carbs = jsOrEmptyStr ((x.getD blankFoodItem).carbs) := rfl
    have hf : (normalizeFoodItem x).fat = jsOrEmptyStr ((x.getD blankFoodItem).fat) := rfl
    rw [hc, hp, hcb, hf]
    exact ⟨(jsOrEmptyStr_ne _).1, (jsOrEmptyStr_ne _).2, (jsOrEmptyStr_ne _).1,
      (jsOrEmptyStr_ne _).2, (jsOrEmptyStr_ne _).1, (jsOrEmptyStr_ne _).2,
      (jsOrEmptyStr_ne _).1, (jsOrEmptyStr_ne _).2⟩

/-! ## C10: garbled quantity zeroes the item -/

/-- C10: a present, non-empty `qty` that does not coerce to a finite
number is normalized to `0` — the clamp's lower bound — not to the
default `1`, and such an item contributes nothing to any macro
total. -/
theorem claim_garbledQty (it : FoodItem) (s : String)
    (hq : it.qty = JSVal.str s) (hne : s ≠ "") (hnan : jsStrToNum s = none) :
    (normalizeFoodItem (some it)).qty = JSVal.num 0
  ∧ (normalizeFoodItem (some it)).qty ≠ JSVal.num 1
  ∧ calcMealTotals (some ⟨some [some it]⟩) = zeroTotals := by
  have hcond : ¬(it.qty = JSVal.undefined ∨ it.qty = JSVal.null ∨ it.qty = JSVal.str "") := by
    rw [hq]; simp [hne]
  have hclamp : clamp it.qty 0 100 = 0 := by
    rw [hq]; simp [clamp, toNumber, hnan]
  have h1 : (normalizeFoodItem (some it)).qty = JSVal.num 0 := by
    unfold normalizeFoodItem
    simp only [Option.getD_some]
    rw [if_neg hcond, hclamp]
  have hz : clamp (normalizeFoodItem (some it)).qty 0 100 = 0 := by
    rw [h1]; exact clamp_num_of_mem le_rfl (by norm_num)
  refine ⟨h1, by rw [h1]; simp, ?_⟩
  show roundTotals (((mealItems (some ⟨some [some it]⟩)).map normalizeFoodItem).foldl addItem zeroTotals) = zeroTotals
  simp only [mealItems, Option.getD_some, List.map_cons, List.map_nil,
    List.foldl_cons, List.foldl_nil, addItem, hz, zeroTotals]
  simp [roundTotals, round1_zero, zeroTotals]

theorem claim_garbledQty_witness :
    (normalizeFoodItem (some itemAbc)).qty = JSVal.num 0
  ∧ (normalizeFoodItem (some itemAbc)).qty ≠ JSVal.num 1
  ∧ calcMealTotals (some ⟨some [some itemAbc]⟩) = zeroTotals :=
  claim_garbledQty itemAbc "abc" rfl (by decide) (by decide)

/-! ## C4: weekly averages -/

/-- C4: the weekly average sums the day totals of exactly the 7
consecutive calendar days ending at the anchor inclusive — a date with
no stored day contributing all-zero totals, not being skipped — and
divides by exactly 7 (calories rounded to an integer, the other macros
to one decimal); with only two logged days of 100 and 200 calories in
the window, the average calories are `round(300/7) = 43`. -/
theorem claim_weeklyAverages (days : List Day) (anchor : CalDate) :
    weeklyAverages days anchor =
      ⟨(jsRound ((sumTotals ((List.range 7).map
          (fun i => dayTotalsAt days (subDays anchor i)))).calories / 7) : ℚ),
       round1 ((sumTotals ((List.range 7).map
          (fun i => dayTotalsAt days (subDays anchor i)))).protein / 7),
       round1 ((sumTotals ((List.range 7).map
          (fun i => dayTotalsAt days (subDays anchor i)))).carbs / 7),
       round1 ((sumTotals ((List.range 7).map
          (fun i => dayTotalsAt days (subDays anchor i)))).fat / 7)⟩
  ∧ (∀ c : CalDate, lookupByDate days c = none → dayTotalsAt days c = zeroTotals)
  ∧ (weeklyAverages [dayW1, dayW2] anchorW).calories = 43 := by
  refine ⟨?_, ?_, by decide⟩
  · have hS : sumTotals ((List.range 7).map
        (fun k => dayTotalsAt days (subDays anchor (6 - k))))
        = sumTotals ((List.range 7).map
        (fun i => dayTotalsAt days (subDays anchor i))) := by
      have e1 : List.range 7 = [0, 1, 2, 3, 4, 5, 6] := rfl
      rw [e1]
      simp only [List.map_cons, List.map_nil, sumTotals, List.foldl_cons,
        List.foldl_nil, addTotals, zeroTotals]
      simp only [Totals.mk.injEq]
      norm_num
      refine ⟨by ring, by ring, by ring, by ring⟩
    show
      (⟨(jsRound ((sumTotals ((List.range 7).map
          (fun k => dayTotalsAt days (subDays anchor (6 - k))))).calories / 7) : ℚ),
        round1 ((sumTotals ((List.range 7).map
          (fun k => dayTotalsAt days (subDays anchor (6 - k))))).protein / 7),
        round1 ((sumTotals ((List.range 7).map
          (fun k => dayTotalsAt days (subDays anchor (6 - k))))).carbs / 7),
        round1 ((sumTotals ((List.range 7).map
          (fun k => dayTotalsAt days (subDays anchor (6 - k))))).fat / 7)⟩ : Totals) = _
    rw [hS]
  · intro c h
    unfold dayTotalsAt
    rw [h]

theorem claim_weeklyAverages_witness :
    dayTotalsAt [dayW1, dayW2] ⟨2026, 10, 9⟩ = zeroTotals :=
  (claim_weeklyAverages [dayW1, dayW2] anchorW).2.1 ⟨2026, 10, 9⟩ (by decide)

/-! ## C9: FDC macro extraction -/

theorem findNutByName_eq_none {l : List (Option Nutrient)} {needle : String}
    (h : ∀ n ∈ l, nameMatches n needle = false) : findNutByName l needle = none := by
  unfold findNutByName
  rw [List.find?_eq_none.mpr (fun n hn => by simp [h n hn])]
  rfl

theorem findNutByNumber_eq_none {l : List (Option Nutrient)} {numStr : String}
    (h : ∀ n ∈ l, numberMatches n numStr = false) : findNutByNumber l numStr = none := by
  unfold findNutByNumber
  rw [List.find?_eq_none.mpr (fun n hn => by simp [h n hn])]
  rfl

/-- C9: macro extraction finds each of energy/protein/carbohydrate/fat
by case-insensitive name match, falls back to the standard nutrient
numbers 208/203/205/204 when no name matches, returns the found value
as a string, and returns the empty string — not zero — when nothing is
found; on `[{nutrientNumber: "208", value: 95}]` with no name match the
calories are `"95"` and the other macros `""`. -/
theorem claim_extractMacros (food : Option FDCFood) :
    extractMacrosFromFDC (some foodScenario) = ⟨"95", "", "", ""⟩
  ∧ ((∀ n ∈ nutrientsOf food, nameMatches n "energy" = false) →
      (extractMacrosFromFDC food).calories
        = strOrEmpty (valueOrAmount (findNutByNumber (nutrientsOf food) "208")))
  ∧ ((∀ n ∈ nutrientsOf food,
        nameMatches n "energy" = false ∧ numberMatches n "208" = false) →
      (extractMacrosFromFDC food).calories = "")
  ∧ ((∀ n ∈ nutrientsOf food,
        nameMatches n "protein" = false ∧ numberMatches n "203" = false) →
      (extractMacrosFromFDC food).protein = "")
  ∧ ((∀ n ∈ nutrientsOf food,
        nameMatches n "carbohydrate" = false ∧ numberMatches n "205" = false) →
      (extractMacrosFromFDC food).carbs = "")
  ∧ ((∀ n ∈ nutrientsOf food,
        nameMatches n "total lipid" = false ∧ nameMatches n "fat" = false ∧
          numberMatches n "204" = false) →
      (extractMacrosFromFDC food).fat = "") := by
  refine ⟨by decide, ?_, ?_, ?_, ?_, ?_⟩
  · intro h
    show strOrEmpty (valueOrAmount _) = _
    rw [findNutByName_eq_none h]
    rfl
  · intro h
    show strOrEmpty (valueOrAmount _) = _
    rw [findNutByName_eq_none (fun n hn => (h n hn).1),
      findNutByNumber_eq_none (fun n hn => (h n hn).2)]
    rfl
  · intro h
    show strOrEmpty (valueOrAmount _) = _
    rw [findNutByName_eq_none (fun n hn => (h n hn).1),
      findNutByNumber_eq_none (fun n hn => (h n hn).2)]
    rfl
  · intro h
    show strOrEmpty (valueOrAmount _) = _
    rw [findNutByName_eq_none (fun n hn => (h n hn).1),
      findNutByNumber_eq_none (fun n hn => (h n hn).2)]
    rfl
  · intro h
    show strOrEmpty (valueOrAmount _) = _
    rw [findNutByName_eq_none (fun n hn => (h n hn).1),
      findNutByName_eq_none (fun n hn => (h n hn).2.1),
      findNutByNumber_eq_none (fun n hn => (h n hn).2.2)]
    rfl

theorem claim_extractMacros_witness :
    (extractMacrosFromFDC none).calories = "" :=
  (claim_extractMacros none).2.2.1 (by simp [nutrientsOf])

/-! ## Calendar-order and day-collection lemmas -/

theorem CalDate.ltb_irrefl (a : CalDate) : CalDate.ltb a a = false := by
  simp [CalDate.ltb]

theorem CalDate.ltb_ne {a t : CalDate} (h : CalDate.ltb a t = true) : a ≠ t := by
  intro he
  subst he
  rw [CalDate.ltb_irrefl] at h
  cases h

theorem applyPatch_date (d : Day) (p : DayPatch) : (applyPatch d p).date = d.date := rfl

theorem daysBefore_date {days : List Day} {t : CalDate} {d : Day}
    (h : d ∈ daysBefore days t) :
    ∃ a, d.date = some a ∧ CalDate.ltb a t = true := by
  unfold daysBefore at h
  rw [List.mem_filter] at h
  obtain ⟨-, hf⟩ := h
  cases hd : d.date with
  | none => rw [hd] at hf; cases hf
  | some a => rw [hd] at hf; exact ⟨a, rfl, hf⟩

theorem sameDayAs_of_before {days : List Day} {t : CalDate} {d : Day}
    (h : d ∈ daysBefore days t) : sameDayAs d.date t = false := by
  obtain ⟨a, hd, hlt⟩ := daysBefore_date h
  rw [hd]
  simp [sameDayAs]
  exact CalDate.ltb_ne hlt

theorem mostRecentPriorDay_mem {days : List Day} {t : CalDate} {prev : Day}
    (h : mostRecentPriorDay days t = some prev) : prev ∈ daysBefore days t := by
  unfold mostRecentPriorDay at h
  have hmem : prev ∈ List.insertionSort dayDescRel (daysBefore days t) :=
    List.mem_of_mem_head? (Option.mem_def.mpr h)
  exact (List.perm_insertionSort dayDescRel (daysBefore days t)).mem_iff.mp hmem

theorem daysBefore_sub {days : List Day} {t : CalDate} {d : Day}
    (h : d ∈ daysBefore days t) : d ∈ days := by
  unfold daysBefore at h
  exact (List.mem_filter.mp h).1

theorem mem_patchFirstSameDay {d : Day} {t : CalDate} {p : DayPatch} {l : List Day}
    (hd : d ∈ l) (hs : sameDayAs d.date t = false) : d ∈ patchFirstSameDay t p l := by
  induction l with
  | nil => cases hd
  | cons x xs ih =>
      unfold patchFirstSameDay
      by_cases hx : sameDayAs x.date t = true
      · rw [if_pos hx]
        rcases List.mem_cons.mp hd with he | hmem
        · rw [he] at hs; rw [hx] at hs; cases hs
        · exact List.mem_cons_of_mem _ hmem
      · rw [if_neg hx]
        rcases List.mem_cons.mp hd with he | hmem
        · rw [he]; exact List.mem_cons_self _ _
        · exact List.mem_cons_of_mem _ (ih hmem)

theorem patchFirstSameDay_length (t : CalDate) (p : DayPatch) (l : List Day) :
    (patchFirstSameDay t p l).length = l.length := by
  induction l with
  | nil => rfl
  | cons x xs ih =>
      unfold patchFirstSameDay
      by_cases hx : sameDayAs x.date t = true
      · rw [if_pos hx]; rfl
      · rw [if_neg hx]; simp [ih]

theorem mem_patchFirstSameDay_date {b : Day} {t : CalDate} {p : DayPatch} {l : List Day}
    (h : b ∈ patchFirstSameDay t p l) : ∃ b₀ ∈ l, b.date = b₀.date := by
  induction l with
  | nil => cases h
  | cons x xs ih =>
      unfold patchFirstSameDay at h
      by_cases hx : sameDayAs x.date t = true
      · rw [if_pos hx] at h
        rcases List.mem_cons.mp h with he | hmem
        · exact ⟨x, List.mem_cons_self _ _, by rw [he, applyPatch_date]⟩
        · exact ⟨b, List.mem_cons_of_mem _ hmem, rfl⟩
      · rw [if_neg hx] at h
        rcases List.mem_cons.mp h with he | hmem
        · exact ⟨x, List.mem_cons_self _ _, by rw [he]⟩
        · obtain ⟨b₀, hb₀, hdate⟩ := ih hmem
          exact ⟨b₀, List.mem_cons_of_mem _ hb₀, hdate⟩

theorem sameCalendarDay_comm (x y : Option CalDate) :
    sameCalendarDay x y = sameCalendarDay y x := by
  cases x <;> cases y <;> simp [sameCalendarDay, eq_comm]

theorem distinctDates_symm :
    ∀ {a b : Day}, sameCalendarDay a.date b.date = false →
      sameCalendarDay b.date a.date = false := by
  intro a b h
  rw [sameCalendarDay_comm]
  exact h

theorem patchFirstSameDay_pairwise {t : CalDate} {p : DayPatch} {l : List Day}
    (h : DistinctDates l) : DistinctDates (patchFirstSameDay t p l) := by
  induction l with
  | nil => exact h
  | cons x xs ih =>
      rw [DistinctDates, List.pairwise_cons] at h
      obtain ⟨hx1, hx2⟩ := h
      unfold patchFirstSameDay
      by_cases hx : sameDayAs x.date t = true
      · rw [if_pos hx]
        rw [DistinctDates, List.pairwise_cons]
        exact ⟨fun b hb => by rw [applyPatch_date]; exact hx1 b hb, hx2⟩
      · rw [if_neg hx]
        rw [DistinctDates, List.pairwise_cons]
        refine ⟨?_, ih hx2⟩
        intro b hb
        obtain ⟨b₀, hb₀, hdate⟩ := mem_patchFirstSameDay_date hb
        rw [hdate]
        exact hx1 b₀ hb₀

/-! ## C6: copy-forward preserves its source -/

/-- C6: copying all meals forward is a no-op on the collection when no
prior day exists, and otherwise every successful copy leaves the source
day — meals included — present and structurally unchanged in the
resulting collection (the copy is by value with fresh identities, so
nothing can alias the source). -/
theorem claim_copyAllMeals (g : ℕ → JSVal) (newId : JSVal) (days : List Day) (t : CalDate) :
    (mostRecentPriorDay days t = none → copyMealsFromPreviousDay g newId days t = some days)
  ∧ (∀ prev days', mostRecentPriorDay days t = some prev →
      copyMealsFromPreviousDay g newId days t = some days' → prev ∈ days') := by
  constructor
  · intro h
    unfold copyMealsFromPreviousDay
    rw [h]
  · intro prev days' h hc
    unfold copyMealsFromPreviousDay at hc
    rw [h] at hc
    have hc2 : Option.map (fun mm => upsertDay newId days t ⟨some mm, none, none⟩)
        (setAllMealsFresh g (prev.meals.getD emptyMeals)) = some days' := hc
    have hmem : prev ∈ daysBefore days t := mostRecentPriorDay_mem h
    have hs : sameDayAs prev.date t = false := sameDayAs_of_before hmem
    have hin : prev ∈ days := daysBefore_sub hmem
    cases hset : setAllMealsFresh g (prev.meals.getD emptyMeals) with
    | none => rw [hset] at hc2; cases hc2
    | some mm =>
        rw [hset] at hc2
        have hc3 : some (upsertDay newId days t ⟨some mm, none, none⟩) = some days' := hc2
        obtain rfl : upsertDay newId days t ⟨some mm, none, none⟩ = days' :=
          Option.some.inj hc3
        unfold upsertDay
        by_cases hany : days.any (fun d => sameDayAs d.date t) = true
        · rw [if_pos hany]
          exact mem_patchFirstSameDay hin hs
        · rw [if_neg hany]
          exact (List.perm_insertionSort dayDescRel _).mem_iff.mpr
            (List.mem_cons_of_mem _ hin)

theorem claim_copyAllMeals_witness : dayP ∈ days6R :=
  (claim_copyAllMeals g0 (.str "new") days5 tW).2 dayP days6R (by decide) (by decide)

/-! ## C5: copy one meal, replace and append -/

theorem Meals.get_set_same (ms : Meals) (m : MealName) (v : Option Meal) :
    (ms.set m v).get m = v := by
  cases m <;> rfl

theorem freshItems_length (g : ℕ → JSVal) (items : List (Option FoodItem)) :
    (freshItems g items).length = items.length := by
  unfold freshItems
  exact List.length_mapIdx ..

/-- C5: given a qualifying prior day, copy-one-meal produces in replace
mode a destination item list exactly as long as the prior source meal,
and in append mode the copied items followed by the pre-existing
destination items — so its length is the prior destination length plus
the prior source length; the collection update is the `upsertDay` of
precisely that meals object. -/
theorem claim_copyOneMeal (g : ℕ → JSVal) (newId : JSVal) (days : List Day) (t : CalDate)
    (mealName : MealName) (prev : Day) (h : mostRecentPriorDay days t = some prev) :
    (mealItemsIn (copyOneMealMeals g days t mealName "replace" prev) mealName).length
      = (mealItemsOf prev mealName).length
  ∧ mealItemsIn (copyOneMealMeals g days t mealName "append" prev) mealName
      = freshItems g (mealItemsOf prev mealName)
        ++ mealItemsIn ((selectedDayOf days t).meals.getD emptyMeals) mealName
  ∧ (mealItemsIn (copyOneMealMeals g days t mealName "append" prev) mealName).length
      = (mealItemsIn ((selectedDayOf days t).meals.getD emptyMeals) mealName).length
        + (mealItemsOf prev mealName).length
  ∧ copyMealFromPreviousDay g newId days t mealName "replace"
      = upsertDay newId days t ⟨some (copyOneMealMeals g days t mealName "replace" prev), none, none⟩
  ∧ copyMealFromPreviousDay g newId days t mealName "append"
      = upsertDay newId days t ⟨some (copyOneMealMeals g days t mealName "append" prev), none, none⟩ := by
  have hrep : mealItemsIn (copyOneMealMeals g days t mealName "replace" prev) mealName
      = freshItems g (mealItemsOf prev mealName) := by
    unfold copyOneMealMeals mealItemsIn
    rw [Meals.get_set_same]
    simp
  have happ : mealItemsIn (copyOneMealMeals g days t mealName "append" prev) mealName
      = freshItems g (mealItemsOf prev mealName)
        ++ mealItemsIn ((selectedDayOf days t).meals.getD emptyMeals) mealName := by
    unfold copyOneMealMeals mealItemsIn
    rw [Meals.get_set_same]
    simp
  refine ⟨?_, happ, ?_, ?_, ?_⟩
  · rw [hrep, freshItems_length]
  · rw [happ, List.length_append, freshItems_length, Nat.add_comm]
  · unfold copyMealFromPreviousDay
    rw [h]
  · unfold copyMealFromPreviousDay
    rw [h]

theorem claim_copyOneMeal_witness :
    (mealItemsIn (copyOneMealMeals g0 days5 tW MealName.lunch "append" dayP) MealName.lunch).length = 3 := by
  have h := claim_copyOneMeal g0 (.str "new") days5 tW MealName.lunch dayP (by decide)
  exact h.2.2.1.trans (by decide)

/-! ## C8: one day per calendar date -/

/-- C8: `upsertDay` patches the first stored day of the same calendar
date in place (same collection length, no new day), and only when none
exists does it create one fresh day for that date — so the
one-day-per-calendar-date invariant is preserved by every update. -/
theorem claim_upsertDay (newId : JSVal) (days : List Day) (t : CalDate) (p : DayPatch)
    (h : DistinctDates days) :
    DistinctDates (upsertDay newId days t p)
  ∧ (days.any (fun d => sameDayAs d.date t) = true →
      upsertDay newId days t p = patchFirstSameDay t p days
      ∧ (upsertDay newId days t p).length = days.length)
  ∧ (days.any (fun d => sameDayAs d.date t) = false →
      (upsertDay newId days t p).Perm (applyPatch (freshDay newId t) p :: days)) := by
  refine ⟨?_, ?_, ?_⟩
  · unfold upsertDay
    by_cases hany : days.any (fun d => sameDayAs d.date t) = true
    · rw [if_pos hany]
      exact patchFirstSameDay_pairwise h
    · rw [if_neg hany]
      have hf : days.any (fun d => sameDayAs d.date t) = false := by
        revert hany
        cases days.any (fun d => sameDayAs d.date t) <;> simp
      refine ((List.perm_insertionSort dayDescRel _).pairwise_iff
        (fun hab => distinctDates_symm hab)).mpr ?_
      rw [List.pairwise_cons]
      refine ⟨?_, h⟩
      intro b hb
      have hb' : sameDayAs b.date t = false := by
        have := List.any_eq_false.mp hf b hb
        simpa using this
      rw [applyPatch_date]
      show sameCalendarDay (some t) b.date = false
      cases hbd : b.date with
      | none => rfl
      | some c =>
          rw [hbd] at hb'
          simp [sameDayAs] at hb'
          simp [sameCalendarDay]
          exact fun he => hb' he.symm
  · intro hany
    unfold upsertDay
    rw [if_pos hany]
    exact ⟨rfl, patchFirstSameDay_length t p days⟩
  · intro hany
    unfold upsertDay
    rw [if_neg (by simp [hany])]
    exact List.perm_insertionSort dayDescRel _

theorem claim_upsertDay_witness :
    DistinctDates (upsertDay (.str "new") days5 ⟨2026, 10, 12⟩
      ⟨none, some (.str "note"), none⟩) :=
  (claim_upsertDay (.str "new") days5 ⟨2026, 10, 12⟩
    ⟨none, some (.str "note"), none⟩ (by unfold DistinctDates; decide)).1

/-! ## C7: macro timeline -/

theorem optDateLtb_total (x y : Option CalDate) :
    optDateLtb y x = false ∨ optDateLtb x y = false := by
  cases x <;> cases y <;> simp [optDateLtb, CalDate.ltb] <;> omega

theorem optDateLtb_trans_neg {x y z : Option CalDate}
    (h1 : optDateLtb y x = false) (h2 : optDateLtb z y = false) :
    optDateLtb z x = false := by
  cases x <;> cases y <;> cases z <;> simp_all [optDateLtb, CalDate.ltb] <;> omega

instance : IsTotal Day dayAscRel :=
  ⟨fun a b => optDateLtb_total a.date b.date⟩

instance : IsTrans Day dayAscRel :=
  ⟨fun _ _ _ hab hbc => optDateLtb_trans_neg hab hbc⟩

theorem takeTrailing_sublist (limit : ℕ) (l : List α) :
    (takeTrailing limit l).Sublist l := by
  unfold takeTrailing
  by_cases h : limit = 0
  · rw [if_pos h]
  · rw [if_neg h]
    exact List.drop_sublist _ _

/-- C7 (counterexample to the claim as stated): a stored weight that is
a non-numeric string is not unset, so the timeline keeps `Number("abc")
= NaN` as the point's weight — not `null`, as the claim requires for a
weight that is "not a number". -/
theorem claim_macroTimeline_counterexample :
    (buildMacroTimeline [dayAbc] 7).map TimelineEntry.weight = [JSVal.nan]
  ∧ (buildMacroTimeline [dayAbc] 7).map TimelineEntry.weight ≠ [JSVal.null]
  ∧ dayAbc.weight = JSVal.str "abc" :=
  ⟨by decide, by decide, rfl⟩

/-- C7 (amended): for a positive range limit, the timeline keeps the
days with a date, sorted ascending by calendar date, trailing-truncated
to the limit; each point carries the day's date label, its day totals
and the raw weight — `null` exactly when the weight is unset
(`undefined`/`null`/`""`), the numeric coercion otherwise (NaN, not
null, for a non-numeric string); on 10 days of history with limit 7 it
returns exactly the 7 chronologically-latest days, ascending. -/
theorem claim_macroTimeline (days : List Day) (limit : ℕ) (hl : 1 ≤ limit) :
    (buildMacroTimeline days limit).length = min limit (days.filter hasDate).length
  ∧ (buildMacroTimeline days limit).Pairwise entryAscRel
  ∧ (∀ e ∈ buildMacroTimeline days limit,
      ∃ d ∈ days, hasDate d = true ∧ e = timelineEntryOf d)
  ∧ (∀ w : JSVal,
      ((w = JSVal.undefined ∨ w = JSVal.null ∨ w = JSVal.str "") →
        timelineWeight w = JSVal.null)
      ∧ (∀ q : ℚ, toNumber w = some q →
          ¬(w = JSVal.undefined ∨ w = JSVal.null ∨ w = JSVal.str "") →
          timelineWeight w = JSVal.num q)
      ∧ (toNumber w = none →
          ¬(w = JSVal.undefined ∨ w = JSVal.null ∨ w = JSVal.str "") →
          timelineWeight w = JSVal.nan))
  ∧ (buildMacroTimeline days10 7).map TimelineEntry.iso
      = [some ⟨2026, 10, 4⟩, some ⟨2026, 10, 5⟩, some ⟨2026, 10, 6⟩,
         some ⟨2026, 10, 7⟩, some ⟨2026, 10, 8⟩, some ⟨2026, 10, 9⟩,
         some ⟨2026, 10, 10⟩] := by
  refine ⟨?_, ?_, ?_, ?_, by decide⟩
  · unfold buildMacroTimeline takeTrailing
    rw [if_neg (by omega)]
    rw [List.length_map, List.length_drop,
      (List.perm_insertionSort dayAscRel (days.filter hasDate)).length_eq]
    omega
  · have hsorted : (List.insertionSort dayAscRel (days.filter hasDate)).Pairwise dayAscRel :=
      List.sorted_insertionSort dayAscRel (days.filter hasDate)
    have hsub : (takeTrailing limit (List.insertionSort dayAscRel (days.filter hasDate))).Pairwise dayAscRel :=
      hsorted.sublist (takeTrailing_sublist _ _)
    unfold buildMacroTimeline
    rw [List.pairwise_map]
    exact hsub
  · intro e he
    unfold buildMacroTimeline at he
    rw [List.mem_map] at he
    obtain ⟨d, hd, he⟩ := he
    have hd2 : d ∈ List.insertionSort dayAscRel (days.filter hasDate) :=
      (takeTrailing_sublist _ _).mem hd
    have hd3 : d ∈ days.filter hasDate :=
      (List.perm_insertionSort dayAscRel (days.filter hasDate)).mem_iff.mp hd2
    have hd4 := List.mem_filter.mp hd3
    exact ⟨d, hd4.1, hd4.2, he.symm⟩
  · intro w
    refine ⟨?_, ?_, ?_⟩
    · intro h
      rw [timelineWeight, if_pos h]
    · intro q hq hn
      rw [timelineWeight, if_neg hn, hq]
    · intro hq hn
      rw [timelineWeight, if_neg hn, hq]

theorem claim_macroTimeline_witness :
    (buildMacroTimeline days10 7).length = min 7 (days10.filter hasDate).length :=
  (claim_macroTimeline days10 7 (by norm_num)).1

end NutriTrack
